import Mathlib

/-!
Verification of the potato inventory registry (wildum/potato).

Shallow embedding of the core of the repository:
- `models/potato.go`, `models/inventory.go` : the data model;
- `storage/storage.go`                      : the in-memory entity store;
- `service/potato_service.go`               : validation, CRUD service,
                                              aggregation, freshness,
                                              recipe recommendation;
- `background/worker.go`                    : the quality degrader pass.

Go maps are embedded as association lists (`List (String × α)`) with
insert-or-overwrite, lookup and remove; Go `float64` fields are embedded as
exact rationals `ℚ`; Go `time.Time` is embedded as an integer timestamp in
hours (the code only ever consumes time through `time.Since(t).Hours()`,
`AddDate` by whole days and `IsZero`, all of which are exact on whole
hours), with `0` standing for Go's zero `time.Time`.  The mutexes of
`storage.go` are embedded statically: for each store operation, the list of
lock fields it acquires and the mode of the acquisition, read off the
source.
-/

namespace Potatoes

/-! ## Association-list model of Go maps -/

/-- Lookup in a Go map embedded as an association list (first match). -/
def mapLookup {α : Type} (m : List (String × α)) (k : String) : Option α :=
  match m with
  | [] => none
  | (k1, v1) :: rest => if k1 = k then some v1 else mapLookup rest k

/-- `m[k] = v` for a Go map: overwrite the entry for `k` if present,
otherwise append a new entry. -/
def mapInsert {α : Type} (m : List (String × α)) (k : String) (v : α) :
    List (String × α) :=
  match m with
  | [] => [(k, v)]
  | (k1, v1) :: rest =>
      if k1 = k then (k, v) :: rest else (k1, v1) :: mapInsert rest k v

/-- `delete(m, k)` for a Go map: drop the entry for `k`. -/
def mapRemove {α : Type} (m : List (String × α)) (k : String) :
    List (String × α) :=
  m.filter (fun kv => kv.1 ≠ k)

theorem mapLookup_mapInsert_self {α : Type} (m : List (String × α))
    (k : String) (v : α) : mapLookup (mapInsert m k v) k = some v := by
  induction m with
  | nil => simp [mapInsert, mapLookup]
  | cons kv rest ih =>
      obtain ⟨k1, v1⟩ := kv
      by_cases h : k1 = k
      · simp [mapInsert, h, mapLookup]
      · simp [mapInsert, h, mapLookup, ih]

theorem mapLookup_mapInsert_ne {α : Type} (m : List (String × α))
    (k k' : String) (v : α) (h : k ≠ k') :
    mapLookup (mapInsert m k v) k' = mapLookup m k' := by
  induction m with
  | nil => simp [mapInsert, mapLookup, h]
  | cons kv rest ih =>
      obtain ⟨k1, v1⟩ := kv
      by_cases h1 : k1 = k
      · subst h1
        simp [mapInsert, mapLookup, h]
      · simp only [mapInsert, if_neg h1]
        by_cases h2 : k1 = k'
        · simp [mapLookup, h2]
        · simp [mapLookup, h2, ih]

theorem mapRemove_cons_self {α : Type} (k : String) (v : α)
    (rest : List (String × α)) :
    mapRemove ((k, v) :: rest) k = mapRemove rest k := by
  simp [mapRemove]

theorem mapRemove_cons_ne {α : Type} (k k1 : String) (v : α)
    (rest : List (String × α)) (h : k1 ≠ k) :
    mapRemove ((k1, v) :: rest) k = (k1, v) :: mapRemove rest k := by
  simp [mapRemove, h]

theorem mapLookup_mapRemove_self {α : Type} (m : List (String × α))
    (k : String) : mapLookup (mapRemove m k) k = none := by
  induction m with
  | nil => simp [mapRemove, mapLookup]
  | cons kv rest ih =>
      obtain ⟨k1, v1⟩ := kv
      by_cases h : k1 = k
      · subst h
        rw [mapRemove_cons_self]
        exact ih
      · rw [mapRemove_cons_ne _ _ _ _ h]
        simp [mapLookup, h, ih]

theorem mapLookup_mapRemove_ne {α : Type} (m : List (String × α))
    (k k' : String) (h : k ≠ k') :
    mapLookup (mapRemove m k) k' = mapLookup m k' := by
  induction m with
  | nil => simp [mapRemove, mapLookup]
  | cons kv rest ih =>
      obtain ⟨k1, v1⟩ := kv
      by_cases h1 : k1 = k
      · subst h1
        rw [mapRemove_cons_self]
        simp [mapLookup, h, ih]
      · rw [mapRemove_cons_ne _ _ _ _ h1]
        simp [mapLookup, ih]

theorem mapLookup_eq_none_iff {α : Type} (m : List (String × α))
    (k : String) : mapLookup m k = none ↔ k ∉ m.map Prod.fst := by
  induction m with
  | nil => simp [mapLookup]
  | cons kv rest ih =>
      obtain ⟨k1, v1⟩ := kv
      by_cases h : k1 = k
      · simp [mapLookup, h]
      · simp [mapLookup, h, ih, Ne.symm h]

theorem mapLookup_of_mem {α : Type} (m : List (String × α))
    (k : String) (v : α) (hnd : (m.map Prod.fst).Nodup)
    (hmem : (k, v) ∈ m) : mapLookup m k = some v := by
  induction m with
  | nil => simp at hmem
  | cons kv rest ih =>
      obtain ⟨k1, v1⟩ := kv
      simp only [List.map_cons, List.nodup_cons] at hnd
      rcases List.mem_cons.mp hmem with h | h
      · obtain ⟨rfl, rfl⟩ := Prod.mk.injEq .. ▸ h
        simp [mapLookup]
      · have hk : k1 ≠ k := by
          rintro rfl
          exact hnd.1 (List.mem_map.mpr ⟨(k1, v), h, rfl⟩)
        simp [mapLookup, hk, ih hnd.2 h]

/-! ## Data model (`models/potato.go`, `models/inventory.go`) -/

/-- `models.Potato`: the InventoryItem record.  `harvestDate` is an integer
timestamp in hours; `0` is Go's zero `time.Time`. -/
structure Potato where
  id : String
  variety : String
  origin : String
  weight : ℚ
  quality : String
  harvestDate : ℤ
  price : ℚ
  deriving DecidableEq, Repr

/-- `models.Recipe`. -/
structure Recipe where
  id : String
  name : String
  variety : String
  cookingTime : ℤ
  difficulty : String
  ingredients : List String
  instructions : List String
  servings : ℤ
  deriving DecidableEq, Repr

/-- `models.Premium` -/
def Premium : String := "Premium"
/-- `models.Standard` -/
def Standard : String := "Standard"
/-- `models.Economy` -/
def Economy : String := "Economy"

/-- `models.InventoryItem`: one per-variety group of the summary. -/
structure InventoryItem where
  variety : String
  totalQuantity : ℕ
  totalWeight : ℚ
  averagePrice : ℚ
  deriving DecidableEq, Repr

/-- `models.InventorySummary`. -/
structure InventorySummary where
  totalPotatoes : ℕ
  totalWeight : ℚ
  totalValue : ℚ
  byVariety : List InventoryItem
  deriving DecidableEq, Repr

/-- The Go zero value `models.Potato{}`. -/
def emptyPotato : Potato :=
  { id := "", variety := "", origin := "", weight := 0, quality := "",
    harvestDate := 0, price := 0 }

/-- The Go zero value `models.Recipe{}`. -/
def emptyRecipe : Recipe :=
  { id := "", name := "", variety := "", cookingTime := 0, difficulty := "",
    ingredients := [], instructions := [], servings := 0 }

/-! ## Entity store (`storage/storage.go`) -/

namespace Storage

/-- The two error values of `storage/storage.go`. -/
inductive StorageErr where
  | errNotFound
  | errRecipeNotFound
  deriving DecidableEq, Repr

/-- `storage.InMemoryStorage`: the two Go maps (the single `mu` mutex is
modelled separately, see `locksAcquired`). -/
structure InMemoryStorage where
  potatoes : List (String × Potato)
  recipes : List (String × Recipe)
  deriving DecidableEq, Repr

/-- `storage.NewInMemoryStorage`. -/
def NewInMemoryStorage : InMemoryStorage := { potatoes := [], recipes := [] }

/-- `(*InMemoryStorage).AddPotato`: `s.potatoes[potato.ID] = potato;
return nil`. -/
def AddPotato (s : InMemoryStorage) (potato : Potato) :
    InMemoryStorage × Option StorageErr :=
  ({ s with potatoes := mapInsert s.potatoes potato.id potato }, none)

/-- `(*InMemoryStorage).GetPotato`. -/
def GetPotato (s : InMemoryStorage) (id : String) :
    Potato × Option StorageErr :=
  match mapLookup s.potatoes id with
  | some potato => (potato, none)
  | none => (emptyPotato, some .errNotFound)

/-- `(*InMemoryStorage).GetAllPotatoes`: the snapshot of all records, in
the (unspecified) iteration order of the map, here the order of the
association list. -/
def GetAllPotatoes (s : InMemoryStorage) : List Potato :=
  s.potatoes.map Prod.snd

/-- `(*InMemoryStorage).UpdatePotato`: `NotFound` if the key is absent,
else overwrite the full record. -/
def UpdatePotato (s : InMemoryStorage) (id : String) (potato : Potato) :
    InMemoryStorage × Option StorageErr :=
  match mapLookup s.potatoes id with
  | some _ => ({ s with potatoes := mapInsert s.potatoes id potato }, none)
  | none => (s, some .errNotFound)

/-- `(*InMemoryStorage).DeletePotato`: `NotFound` if the key is absent,
else remove it. -/
def DeletePotato (s : InMemoryStorage) (id : String) :
    InMemoryStorage × Option StorageErr :=
  match mapLookup s.potatoes id with
  | some _ => ({ s with potatoes := mapRemove s.potatoes id }, none)
  | none => (s, some .errNotFound)

/-- `(*InMemoryStorage).GetPotatoesByVariety`. -/
def GetPotatoesByVariety (s : InMemoryStorage) (variety : String) :
    List Potato :=
  (s.potatoes.map Prod.snd).filter (fun potato => potato.variety = variety)

/-- `(*InMemoryStorage).AddRecipe`: `s.recipes[recipe.ID] = recipe;
return nil`. -/
def AddRecipe (s : InMemoryStorage) (recipe : Recipe) :
    InMemoryStorage × Option StorageErr :=
  ({ s with recipes := mapInsert s.recipes recipe.id recipe }, none)

/-- `(*InMemoryStorage).GetRecipe`. -/
def GetRecipe (s : InMemoryStorage) (id : String) :
    Recipe × Option StorageErr :=
  match mapLookup s.recipes id with
  | some recipe => (recipe, none)
  | none => (emptyRecipe, some .errRecipeNotFound)

/-- `(*InMemoryStorage).GetAllRecipes`. -/
def GetAllRecipes (s : InMemoryStorage) : List Recipe :=
  s.recipes.map Prod.snd

/-- `(*InMemoryStorage).GetRecipesByVariety`. -/
def GetRecipesByVariety (s : InMemoryStorage) (variety : String) :
    List Recipe :=
  (s.recipes.map Prod.snd).filter (fun recipe => recipe.variety = variety)

/-! ### Static model of the locking discipline of `storage/storage.go`

`InMemoryStorage` holds exactly one lock field, `mu sync.RWMutex`
(storage.go line 32); every method acquires it and no other lock.  The
functions below record, for each exported store operation, which lock
fields it acquires and in which mode, read off the body of the method. -/

/-- The two entity kinds of the store. -/
inductive EntityKind where
  | potatoKind
  | recipeKind
  deriving DecidableEq, Repr

/-- The lock fields of `storage.InMemoryStorage`: there is exactly one,
`mu` (storage.go line 32). -/
inductive LockId where
  | mu
  deriving DecidableEq, Repr

/-- Reader/writer acquisition mode of a `sync.RWMutex`. -/
inductive LockMode where
  | sharedMode
  | exclusiveMode
  deriving DecidableEq, Repr

/-- The exported operations of the `storage.Storage` interface. -/
inductive StoreOp where
  | opAddPotato
  | opGetPotato
  | opGetAllPotatoes
  | opUpdatePotato
  | opDeletePotato
  | opGetPotatoesByVariety
  | opAddRecipe
  | opGetRecipe
  | opGetAllRecipes
  | opGetRecipesByVariety
  deriving DecidableEq, Repr

instance : Fintype StoreOp where
  elems :=
    ⟨[StoreOp.opAddPotato, StoreOp.opGetPotato, StoreOp.opGetAllPotatoes,
      StoreOp.opUpdatePotato, StoreOp.opDeletePotato,
      StoreOp.opGetPotatoesByVariety, StoreOp.opAddRecipe,
      StoreOp.opGetRecipe, StoreOp.opGetAllRecipes,
      StoreOp.opGetRecipesByVariety], by decide⟩
  complete := fun op => by cases op <;> decide

/-- The entity kind each store operation works on. -/
def opKind : StoreOp → EntityKind
  | .opAddPotato | .opGetPotato | .opGetAllPotatoes | .opUpdatePotato
  | .opDeletePotato | .opGetPotatoesByVariety => .potatoKind
  | .opAddRecipe | .opGetRecipe | .opGetAllRecipes
  | .opGetRecipesByVariety => .recipeKind

/-- The lock acquisitions performed by each store operation, read off
`storage/storage.go`: every method begins with `s.mu.Lock()` (writers) or
`s.mu.RLock()` (readers) on the one shared `mu` field and acquires nothing
else. -/
def locksAcquired : StoreOp → List (LockId × LockMode)
  | .opAddPotato => [(.mu, .exclusiveMode)]
  | .opGetPotato => [(.mu, .sharedMode)]
  | .opGetAllPotatoes => [(.mu, .sharedMode)]
  | .opUpdatePotato => [(.mu, .exclusiveMode)]
  | .opDeletePotato => [(.mu, .exclusiveMode)]
  | .opGetPotatoesByVariety => [(.mu, .sharedMode)]
  | .opAddRecipe => [(.mu, .exclusiveMode)]
  | .opGetRecipe => [(.mu, .sharedMode)]
  | .opGetAllRecipes => [(.mu, .sharedMode)]
  | .opGetRecipesByVariety => [(.mu, .sharedMode)]

end Storage

/-- The whole-day age computation shared by `CalculateFreshness`
(potato_service.go line 148) and `degradePotatoQuality` (worker.go line
216): `int(time.Since(t).Hours() / 24)`.  With timestamps in whole hours
this is truncated (toward-zero) division of the hour difference by 24. -/
def daysSince (now t : ℤ) : ℤ := Int.tdiv (now - t) 24

/-! ## Service layer (`service/potato_service.go`) -/

namespace Service

/-- The error values raised by the service layer: its own validation
errors, the recommendation failure, and pass-through of a storage error. -/
inductive ServiceErr where
  | errInvalidPotato
  | errInvalidWeight
  | errInvalidPrice
  | errNoRecipesForVariety
  | storageFailure (e : Storage.StorageErr)
  deriving DecidableEq, Repr

/-- `(*PotatoService).validatePotato`. -/
def validatePotato (potato : Potato) : Option ServiceErr :=
  if potato.id = "" ∨ potato.variety = "" then some .errInvalidPotato
  else if potato.weight ≤ 0 then some .errInvalidWeight
  else if potato.price < 0 then some .errInvalidPrice
  else none

/-- `(*PotatoService).CreatePotato`: validate, default a zero harvest
date to `now` (`time.Now()`), then `AddPotato`. -/
def CreatePotato (s : Storage.InMemoryStorage) (now : ℤ) (potato : Potato) :
    Storage.InMemoryStorage × Except ServiceErr Potato :=
  match validatePotato potato with
  | some e => (s, .error e)
  | none =>
      let potato :=
        if potato.harvestDate = 0 then { potato with harvestDate := now }
        else potato
      match Storage.AddPotato s potato with
      | (s1, none) => (s1, .ok potato)
      | (s1, some e) => (s1, .error (.storageFailure e))

/-- `(*PotatoService).UpdatePotato`: validate, then the storage update. -/
def UpdatePotato (s : Storage.InMemoryStorage) (id : String)
    (potato : Potato) : Storage.InMemoryStorage × Except ServiceErr Potato :=
  match validatePotato potato with
  | some e => (s, .error e)
  | none =>
      match Storage.UpdatePotato s id potato with
      | (s1, none) => (s1, .ok potato)
      | (s1, some e) => (s1, .error (.storageFailure e))

/-- `(*PotatoService).DeletePotato`: straight delegation to storage. -/
def DeletePotato (s : Storage.InMemoryStorage) (id : String) :
    Storage.InMemoryStorage × Option Storage.StorageErr :=
  Storage.DeletePotato s id

/-- The per-record update of `varietyMap` inside
`(*PotatoService).GetInventorySummary` (potato_service.go lines 82-93):
on an existing group, increment the count, add the weight, and recompute
the running average as `(avg*(n-1) + price) / n`; otherwise start a new
group. -/
def updateVarietyMap (m : List (String × InventoryItem)) (potato : Potato) :
    List (String × InventoryItem) :=
  match m with
  | [] =>
      [(potato.variety,
        { variety := potato.variety, totalQuantity := 1,
          totalWeight := potato.weight, averagePrice := potato.price })]
  | (k, item) :: rest =>
      if k = potato.variety then
        let q := item.totalQuantity + 1
        (k, { variety := item.variety, totalQuantity := q,
              totalWeight := item.totalWeight + potato.weight,
              averagePrice :=
                (item.averagePrice * ((q : ℚ) - 1) + potato.price) /
                  (q : ℚ) }) :: rest
      else (k, item) :: updateVarietyMap rest potato

/-- The loop state of `GetInventorySummary`: the two running totals and
the variety map. -/
structure SummaryAcc where
  totalWeight : ℚ
  totalValue : ℚ
  varietyMap : List (String × InventoryItem)
  deriving DecidableEq, Repr

/-- One iteration of the loop of `GetInventorySummary` (potato_service.go
lines 78-94). -/
def summaryStep (acc : SummaryAcc) (potato : Potato) : SummaryAcc :=
  { totalWeight := acc.totalWeight + potato.weight
    totalValue := acc.totalValue + potato.price
    varietyMap := updateVarietyMap acc.varietyMap potato }

/-- `(*PotatoService).GetInventorySummary`: one `GetAllPotatoes` snapshot
folded through `summaryStep`. -/
def GetInventorySummary (s : Storage.InMemoryStorage) : InventorySummary :=
  let potatoes := Storage.GetAllPotatoes s
  let acc := potatoes.foldl summaryStep
    { totalWeight := 0, totalValue := 0, varietyMap := [] }
  { totalPotatoes := potatoes.length
    totalWeight := acc.totalWeight
    totalValue := acc.totalValue
    byVariety := acc.varietyMap.map Prod.snd }

/-- `(*PotatoService).CalculateFreshness`. -/
def CalculateFreshness (now : ℤ) (potato : Potato) : String :=
  let daysSinceHarvest := daysSince now potato.harvestDate
  if daysSinceHarvest ≤ 7 then "Fresh"
  else if daysSinceHarvest ≤ 30 then "Good"
  else if daysSinceHarvest ≤ 90 then "Fair"
  else "Old"

/-- `(*RecipeService).RecommendRecipe`: scan the by-variety snapshot for
the first recipe matching the (possibly empty) difficulty, fall back to
the first recipe of the variety, and fail only when the variety has no
recipe at all. -/
def RecommendRecipe (s : Storage.InMemoryStorage)
    (variety difficulty : String) : Except ServiceErr Recipe :=
  let recipes := Storage.GetRecipesByVariety s variety
  match recipes.find?
      (fun recipe =>
        decide (difficulty = "" ∨ recipe.difficulty = difficulty)) with
  | some recipe => .ok recipe
  | none =>
      match recipes with
      | recipe :: _ => .ok recipe
      | [] => .error .errNoRecipesForVariety

end Service

/-! ## Background degrader (`background/worker.go`) -/

namespace Background

/-- The record-level effect of one degrader visit (worker.go lines
216-226): `Premium` older than 30 days becomes `Standard`, else
`Standard` older than 60 days becomes `Economy`, else unchanged. -/
def degradePotato (now : ℤ) (potato : Potato) : Potato :=
  let daysSinceHarvest := daysSince now potato.harvestDate
  if daysSinceHarvest > 30 ∧ potato.quality = Premium then
    { potato with quality := Standard }
  else if daysSinceHarvest > 60 ∧ potato.quality = Standard then
    { potato with quality := Economy }
  else potato

/-- One iteration of the loop of `(*Worker).degradePotatoQuality`: the
conditional `UpdatePotato` against the live store, its error discarded
exactly as the Go code discards it. -/
def degradeStepStore (now : ℤ) (s : Storage.InMemoryStorage)
    (potato : Potato) : Storage.InMemoryStorage :=
  let daysSinceHarvest := daysSince now potato.harvestDate
  if daysSinceHarvest > 30 ∧ potato.quality = Premium then
    (Storage.UpdatePotato s potato.id { potato with quality := Standard }).1
  else if daysSinceHarvest > 60 ∧ potato.quality = Standard then
    (Storage.UpdatePotato s potato.id { potato with quality := Economy }).1
  else s

/-- `(*Worker).degradePotatoQuality`: one full degrader pass — a
`GetAllPotatoes` snapshot, then the per-record loop against the live
store. -/
def degradePotatoQuality (now : ℤ) (s : Storage.InMemoryStorage) :
    Storage.InMemoryStorage :=
  let potatoes := Storage.GetAllPotatoes s
  potatoes.foldl (degradeStepStore now) s

end Background

/-- Well-formedness of a store state: distinct keys, and each potato is
filed under its own `id`.  Every state reachable through the storage API
satisfies this (`AddPotato`/`UpdatePotato` file records under their `id`
field via the service and worker callers), and all store-level claims are
about such states. -/
def WF (s : Storage.InMemoryStorage) : Prop :=
  (s.potatoes.map Prod.fst).Nodup ∧ ∀ kv ∈ s.potatoes, kv.2.id = kv.1

instance (s : Storage.InMemoryStorage) : Decidable (WF s) := by
  unfold WF
  infer_instance

/-! ## Sample data used by the concrete witnesses -/

/-- A sample record builder for concrete test stores. -/
def samplePotato (pid variety quality : String) (harvest : ℤ) : Potato :=
  { id := pid, variety := variety, origin := "Idaho", weight := 2,
    quality := quality, harvestDate := harvest, price := 3 }

/-- A sample recipe builder for concrete test stores. -/
def sampleRecipe (rid name variety difficulty : String) : Recipe :=
  { id := rid, name := name, variety := variety, cookingTime := 45,
    difficulty := difficulty, ingredients := ["2 lbs Russet potatoes"],
    instructions := ["Prepare all ingredients"], servings := 4 }

/-! ## Claim theorems -/

/-- C1, counterexample: `AddPotato` and `AddRecipe` operate on different
entity kinds yet acquire exactly the same lock — the single `mu` of
`InMemoryStorage`, in exclusive mode — so the two kinds are *not* guarded
by their own independent locks and operations on one kind do contend with
operations on the other. -/
theorem addPotato_addRecipe_share_lock :
    Storage.opKind Storage.StoreOp.opAddPotato ≠
      Storage.opKind Storage.StoreOp.opAddRecipe ∧
    Storage.locksAcquired Storage.StoreOp.opAddPotato =
      Storage.locksAcquired Storage.StoreOp.opAddRecipe ∧
    Storage.locksAcquired Storage.StoreOp.opAddPotato =
      [(Storage.LockId.mu, Storage.LockMode.exclusiveMode)] := by
  decide

/-- C1, amended: `InMemoryStorage` has exactly one lock, `mu`, shared by
both entity kinds: every store operation acquires exactly one lock, namely
`mu` (so no operation ever holds two locks and there is no lock-ordering
deadlock), and any two store operations — whatever their entity kinds —
acquire the same lock. -/
theorem store_ops_use_single_shared_lock :
    (∀ op : Storage.StoreOp, (Storage.locksAcquired op).length = 1) ∧
    (∀ op : Storage.StoreOp,
      (Storage.locksAcquired op).map Prod.fst = [Storage.LockId.mu]) ∧
    (∀ op1 op2 : Storage.StoreOp,
      (Storage.locksAcquired op1).map Prod.fst =
        (Storage.locksAcquired op2).map Prod.fst) := by
  decide

/-- C4: a potato with zero weight, negative weight, negative price, empty
id, or empty variety is rejected by both `CreatePotato` and
`UpdatePotato` with one of the three validation errors, and the store is
returned unchanged. -/
theorem invalid_potato_rejected_store_unchanged
    (s : Storage.InMemoryStorage) (now : ℤ) (id : String) (potato : Potato)
    (h : potato.weight = 0 ∨ potato.weight < 0 ∨ potato.price < 0 ∨
      potato.id = "" ∨ potato.variety = "") :
    (Service.CreatePotato s now potato).1 = s ∧
    (∃ e, (Service.CreatePotato s now potato).2 = Except.error e ∧
      (e = Service.ServiceErr.errInvalidPotato ∨
       e = Service.ServiceErr.errInvalidWeight ∨
       e = Service.ServiceErr.errInvalidPrice)) ∧
    (Service.UpdatePotato s id potato).1 = s ∧
    (∃ e, (Service.UpdatePotato s id potato).2 = Except.error e ∧
      (e = Service.ServiceErr.errInvalidPotato ∨
       e = Service.ServiceErr.errInvalidWeight ∨
       e = Service.ServiceErr.errInvalidPrice)) := by
  have hv : ∃ e, Service.validatePotato potato = some e ∧
      (e = Service.ServiceErr.errInvalidPotato ∨
       e = Service.ServiceErr.errInvalidWeight ∨
       e = Service.ServiceErr.errInvalidPrice) := by
    unfold Service.validatePotato
    split_ifs with h1 h2 h3
    · exact ⟨_, rfl, Or.inl rfl⟩
    · exact ⟨_, rfl, Or.inr (Or.inl rfl)⟩
    · exact ⟨_, rfl, Or.inr (Or.inr rfl)⟩
    · exfalso
      push_neg at h1
      push_neg at h2
      push_neg at h3
      rcases h with h | h | h | h | h
      · linarith
      · linarith
      · linarith
      · exact h1.1 h
      · exact h1.2 h
  obtain ⟨e, he, hcl⟩ := hv
  refine ⟨?_, ⟨e, ?_, hcl⟩, ?_, ⟨e, ?_, hcl⟩⟩ <;>
    simp [Service.CreatePotato, Service.UpdatePotato, he]

/-- A concrete malformed potato: weight `0`. -/
def zeroWeightPotato : Potato :=
  { id := "p1", variety := "Russet", origin := "Idaho", weight := 0,
    quality := "Premium", harvestDate := 10, price := 2 }

/-- C4, witness: the concrete potato with weight `0` is rejected by
`CreatePotato` on the empty store, which is left unchanged. -/
theorem invalid_potato_rejected_witness :
    (zeroWeightPotato.weight = 0 ∨ zeroWeightPotato.weight < 0 ∨
     zeroWeightPotato.price < 0 ∨ zeroWeightPotato.id = "" ∨
     zeroWeightPotato.variety = "") ∧
    (Service.CreatePotato Storage.NewInMemoryStorage 100
        zeroWeightPotato).1 = Storage.NewInMemoryStorage :=
  ⟨Or.inl rfl,
   (invalid_potato_rejected_store_unchanged Storage.NewInMemoryStorage
     100 "p1" zeroWeightPotato (Or.inl rfl)).1⟩

/-- C5: `UpdatePotato` and `DeletePotato` fail with `NotFound` exactly
when the key is absent, in which case the store is returned unchanged;
when the key is present, `UpdatePotato` succeeds and replaces the full
record under that key (all other keys and the recipes untouched), and
`DeletePotato` succeeds and removes the key (all other keys and the
recipes untouched). -/
theorem update_delete_notfound_or_replace (s : Storage.InMemoryStorage)
    (id : String) (potato : Potato) :
    (mapLookup s.potatoes id = none →
      Storage.UpdatePotato s id potato =
        (s, some Storage.StorageErr.errNotFound) ∧
      Storage.DeletePotato s id =
        (s, some Storage.StorageErr.errNotFound)) ∧
    (∀ q, mapLookup s.potatoes id = some q →
      (Storage.UpdatePotato s id potato).2 = none ∧
      mapLookup (Storage.UpdatePotato s id potato).1.potatoes id =
        some potato ∧
      (∀ k, k ≠ id →
        mapLookup (Storage.UpdatePotato s id potato).1.potatoes k =
          mapLookup s.potatoes k) ∧
      (Storage.UpdatePotato s id potato).1.recipes = s.recipes ∧
      (Storage.DeletePotato s id).2 = none ∧
      mapLookup (Storage.DeletePotato s id).1.potatoes id = none ∧
      (∀ k, k ≠ id →
        mapLookup (Storage.DeletePotato s id).1.potatoes k =
          mapLookup s.potatoes k) ∧
      (Storage.DeletePotato s id).1.recipes = s.recipes) := by
  constructor
  · intro h
    constructor <;> simp [Storage.UpdatePotato, Storage.DeletePotato, h]
  · intro q hq
    refine ⟨?_, ?_, ?_, ?_, ?_, ?_, ?_, ?_⟩ <;>
      simp [Storage.UpdatePotato, Storage.DeletePotato, hq,
        mapLookup_mapInsert_self, mapLookup_mapRemove_self]
    · intro k hk
      exact mapLookup_mapInsert_ne s.potatoes id k potato (Ne.symm hk)
    · intro k hk
      exact mapLookup_mapRemove_ne s.potatoes id k (Ne.symm hk)

/-- A concrete one-record store. -/
def oneRecordStore : Storage.InMemoryStorage :=
  { potatoes := [("p1", samplePotato "p1" "Russet" "Premium" 0)],
    recipes := [] }

/-- C5, witness: on the concrete one-record store, updating the absent
key fails with `NotFound` leaving the store unchanged, and deleting the
present key succeeds and removes it. -/
theorem update_delete_notfound_witness :
    (mapLookup oneRecordStore.potatoes "p2" = none ∧
      Storage.UpdatePotato oneRecordStore "p2"
          (samplePotato "p2" "Russet" "Premium" 0) =
        (oneRecordStore, some Storage.StorageErr.errNotFound)) ∧
    (mapLookup oneRecordStore.potatoes "p1" =
        some (samplePotato "p1" "Russet" "Premium" 0) ∧
      mapLookup (Storage.DeletePotato oneRecordStore "p1").1.potatoes "p1" =
        none) :=
  ⟨⟨rfl,
    ((update_delete_notfound_or_replace oneRecordStore "p2"
      (samplePotato "p2" "Russet" "Premium" 0)).1 rfl).1⟩,
   ⟨rfl,
    (((update_delete_notfound_or_replace oneRecordStore "p1"
      (samplePotato "p2" "Russet" "Premium" 0)).2
      (samplePotato "p1" "Russet" "Premium" 0) rfl).2.2.2.2.2).1⟩⟩

/-- C9: the storage-layer adds are total — for *every* potato and recipe,
with no validity precondition (empty id, non-positive weight, negative
price included), `AddPotato` and `AddRecipe` return `nil` error and file
the record under its key, so an immediate get on that key returns exactly
the added entity. -/
theorem storage_add_total (s : Storage.InMemoryStorage) (potato : Potato)
    (recipe : Recipe) :
    (Storage.AddPotato s potato).2 = none ∧
    mapLookup (Storage.AddPotato s potato).1.potatoes potato.id =
      some potato ∧
    Storage.GetPotato (Storage.AddPotato s potato).1 potato.id =
      (potato, none) ∧
    (Storage.AddRecipe s recipe).2 = none ∧
    mapLookup (Storage.AddRecipe s recipe).1.recipes recipe.id =
      some recipe ∧
    Storage.GetRecipe (Storage.AddRecipe s recipe).1 recipe.id =
      (recipe, none) := by
  refine ⟨rfl, ?_, ?_, rfl, ?_, ?_⟩ <;>
    simp [Storage.AddPotato, Storage.AddRecipe, Storage.GetPotato,
      Storage.GetRecipe, mapLookup_mapInsert_self]

/-- C10: for a valid potato whose harvest timestamp is the zero time
value, `CreatePotato` succeeds and stores the record with the harvest
date replaced by `now` and every other field unchanged; for a valid
potato with a non-zero harvest timestamp the stored record is exactly the
input. -/
theorem createPotato_defaults_harvest_date (s : Storage.InMemoryStorage)
    (now : ℤ) (potato : Potato)
    (hv : Service.validatePotato potato = none) :
    (potato.harvestDate = 0 →
      Service.CreatePotato s now potato =
        ({ s with
            potatoes :=
              mapInsert s.potatoes potato.id
                ({ potato with harvestDate := now }) },
         Except.ok ({ potato with harvestDate := now }))) ∧
    (potato.harvestDate ≠ 0 →
      Service.CreatePotato s now potato =
        ({ s with potatoes := mapInsert s.potatoes potato.id potato },
         Except.ok potato)) := by
  constructor <;> intro h0 <;>
    simp [Service.CreatePotato, hv, h0, Storage.AddPotato]

/-- The sample potato with harvest timestamp `0` (Go zero time), after
its harvest date has been defaulted to `100`. -/
def sampleDefaulted : Potato :=
  { samplePotato "p1" "Russet" "Premium" 0 with harvestDate := 100 }

/-- C10, witness: on the empty store, a concrete valid potato with
harvest timestamp `0` is stored with harvest date `100`, and the same
potato with harvest timestamp `24` is stored exactly as given. -/
theorem createPotato_defaults_harvest_date_witness :
    (Service.validatePotato (samplePotato "p1" "Russet" "Premium" 0) =
      none ∧
     Service.CreatePotato Storage.NewInMemoryStorage 100
        (samplePotato "p1" "Russet" "Premium" 0) =
      ({ potatoes := [("p1", sampleDefaulted)], recipes := [] },
       Except.ok sampleDefaulted)) ∧
    (Service.validatePotato (samplePotato "p1" "Russet" "Premium" 24) =
      none ∧
     Service.CreatePotato Storage.NewInMemoryStorage 100
        (samplePotato "p1" "Russet" "Premium" 24) =
      ({ potatoes := [("p1", samplePotato "p1" "Russet" "Premium" 24)],
         recipes := [] },
       Except.ok (samplePotato "p1" "Russet" "Premium" 24))) :=
  ⟨⟨rfl,
    (createPotato_defaults_harvest_date Storage.NewInMemoryStorage 100
      (samplePotato "p1" "Russet" "Premium" 0) rfl).1 rfl⟩,
   ⟨rfl,
    (createPotato_defaults_harvest_date Storage.NewInMemoryStorage 100
      (samplePotato "p1" "Russet" "Premium" 24) rfl).2
      (by decide)⟩⟩

/-- C7: `CalculateFreshness` depends only on the whole-day age
`now - harvestDate`: ages 0–7 give `"Fresh"`, 8–30 give `"Good"`, 31–90
give `"Fair"`, 91 and beyond give `"Old"`; two potatoes with the same
harvest date get the same freshness (the function reads nothing else and
touches no store). -/
theorem calculateFreshness_by_age (now : ℤ) (potato : Potato) :
    (0 ≤ daysSince now potato.harvestDate →
      daysSince now potato.harvestDate ≤ 7 →
      Service.CalculateFreshness now potato = "Fresh") ∧
    (8 ≤ daysSince now potato.harvestDate →
      daysSince now potato.harvestDate ≤ 30 →
      Service.CalculateFreshness now potato = "Good") ∧
    (31 ≤ daysSince now potato.harvestDate →
      daysSince now potato.harvestDate ≤ 90 →
      Service.CalculateFreshness now potato = "Fair") ∧
    (91 ≤ daysSince now potato.harvestDate →
      Service.CalculateFreshness now potato = "Old") ∧
    (∀ q : Potato, q.harvestDate = potato.harvestDate →
      Service.CalculateFreshness now q =
        Service.CalculateFreshness now potato) := by
  refine ⟨?_, ?_, ?_, ?_, ?_⟩
  · intro _ h7
    simp only [Service.CalculateFreshness]
    rw [if_pos h7]
  · intro h8 h30
    simp only [Service.CalculateFreshness]
    rw [if_neg (by omega), if_pos h30]
  · intro h31 h90
    simp only [Service.CalculateFreshness]
    rw [if_neg (by omega), if_neg (by omega), if_pos h90]
  · intro h91
    simp only [Service.CalculateFreshness]
    rw [if_neg (by omega), if_neg (by omega), if_neg (by omega)]
  · intro q hq
    simp only [Service.CalculateFreshness, daysSince, hq]

/-- C7, witness: concrete potatoes of age 7, 8, 90 and 91 days (harvest
timestamps in hours, `now = 2184` hours = 91 days) get `"Fresh"`,
`"Good"`, `"Fair"` and `"Old"` respectively. -/
theorem calculateFreshness_by_age_witness :
    Service.CalculateFreshness 2184
      (samplePotato "p1" "Russet" "Premium" (2184 - 7 * 24)) = "Fresh" ∧
    Service.CalculateFreshness 2184
      (samplePotato "p2" "Russet" "Premium" (2184 - 8 * 24)) = "Good" ∧
    Service.CalculateFreshness 2184
      (samplePotato "p3" "Russet" "Premium" (2184 - 90 * 24)) = "Fair" ∧
    Service.CalculateFreshness 2184
      (samplePotato "p4" "Russet" "Premium" 0) = "Old" :=
  ⟨(calculateFreshness_by_age 2184
      (samplePotato "p1" "Russet" "Premium" (2184 - 7 * 24))).1
      (by decide) (by decide),
   (calculateFreshness_by_age 2184
      (samplePotato "p2" "Russet" "Premium" (2184 - 8 * 24))).2.1
      (by decide) (by decide),
   (calculateFreshness_by_age 2184
      (samplePotato "p3" "Russet" "Premium" (2184 - 90 * 24))).2.2.1
      (by decide) (by decide),
   (calculateFreshness_by_age 2184
      (samplePotato "p4" "Russet" "Premium" 0)).2.2.2.1 (by decide)⟩

theorem filter_find?_eq {α : Type} (l : List α) (p c : α → Bool) :
    (l.filter p).find? c = l.find? (fun x => p x && c x) := by
  induction l with
  | nil => rfl
  | cons x xs ih =>
      by_cases hp : p x
      · by_cases hc : c x
        · simp [List.filter_cons, hp, List.find?_cons, hc]
        · simp [List.filter_cons, hp, List.find?_cons, hc, ih]
      · simp [List.filter_cons, hp, List.find?_cons, ih]

theorem filter_head?_eq {α : Type} (l : List α) (p : α → Bool) :
    (l.filter p).head? = l.find? p := by
  induction l with
  | nil => rfl
  | cons x xs ih => by_cases hp : p x <;> simp [List.filter_cons, hp, ih]

/-- C8: `RecommendRecipe` returns the first stored recipe (in snapshot
order) matching the variety and — when a difficulty is given — that
difficulty; when no recipe matches the difficulty it falls back to the
first stored recipe matching the variety alone; when the variety has no
recipe at all it fails with the NotFound-style error. -/
theorem recommendRecipe_first_match (s : Storage.InMemoryStorage)
    (variety difficulty : String) :
    Service.RecommendRecipe s variety difficulty =
      match (Storage.GetAllRecipes s).find?
          (fun r => decide (r.variety = variety ∧
            (difficulty = "" ∨ r.difficulty = difficulty))) with
      | some r => Except.ok r
      | none =>
          match (Storage.GetAllRecipes s).find?
              (fun r => decide (r.variety = variety)) with
          | some r => Except.ok r
          | none => Except.error Service.ServiceErr.errNoRecipesForVariety
      := by
  unfold Service.RecommendRecipe Storage.GetRecipesByVariety
    Storage.GetAllRecipes
  dsimp only
  rw [filter_find?_eq]
  have hpred : (fun r : Recipe => decide (r.variety = variety) &&
      decide (difficulty = "" ∨ r.difficulty = difficulty)) =
      (fun r : Recipe => decide (r.variety = variety ∧
        (difficulty = "" ∨ r.difficulty = difficulty))) := by
    funext r
    by_cases h1 : r.variety = variety <;>
      by_cases h2 : difficulty = "" ∨ r.difficulty = difficulty <;>
        simp [h1, h2]
  rw [hpred]
  cases hfind : (s.recipes.map Prod.snd).find?
      (fun r => decide (r.variety = variety ∧
        (difficulty = "" ∨ r.difficulty = difficulty))) with
  | some r => rfl
  | none =>
      have hhead := filter_head?_eq (s.recipes.map Prod.snd)
        (fun r : Recipe => decide (r.variety = variety))
      cases hfl : (s.recipes.map Prod.snd).filter
          (fun r : Recipe => decide (r.variety = variety)) with
      | nil =>
          rw [hfl] at hhead
          simp only [List.head?] at hhead
          rw [← hhead]
      | cons r0 rest =>
          rw [hfl] at hhead
          simp only [List.head?] at hhead
          rw [← hhead]

/-! ## Lemmas for the degrader pass -/

theorem mapInsert_lookup_self {α : Type} (m : List (String × α))
    (k : String) (v : α) (h : mapLookup m k = some v) :
    mapInsert m k v = m := by
  induction m with
  | nil => simp [mapLookup] at h
  | cons kv rest ih =>
      obtain ⟨k1, v1⟩ := kv
      by_cases h1 : k1 = k
      · subst h1
        have hv : v1 = v := by simpa [mapLookup] using h
        subst hv
        simp [mapInsert]
      · simp only [mapLookup, if_neg h1] at h
        simp [mapInsert, h1, ih h]

theorem keys_mapInsert_of_lookup {α : Type} (m : List (String × α))
    (k : String) (v v0 : α) (h : mapLookup m k = some v0) :
    (mapInsert m k v).map Prod.fst = m.map Prod.fst := by
  induction m with
  | nil => simp [mapLookup] at h
  | cons kv rest ih =>
      obtain ⟨k1, v1⟩ := kv
      by_cases h1 : k1 = k
      · subst h1
        simp [mapInsert]
      · simp only [mapLookup, if_neg h1] at h
        simp [mapInsert, h1, ih h]

theorem mem_mapInsert_ne {α : Type} (m : List (String × α))
    (k k0 : String) (v v0 : α) (hmem : (k, v) ∈ m) (hne : k ≠ k0) :
    (k, v) ∈ mapInsert m k0 v0 := by
  induction m with
  | nil => simp at hmem
  | cons kv rest ih =>
      obtain ⟨k1, v1⟩ := kv
      rcases List.mem_cons.mp hmem with h | h
      · have hk1 : k1 = k := (congrArg Prod.fst h).symm
        have hv1 : v1 = v := (congrArg Prod.snd h).symm
        simp only [mapInsert]
        rw [if_neg (fun hc => hne (hk1 ▸ hc)), hk1, hv1]
        exact List.mem_cons_self _ _
      · by_cases h1 : k1 = k0
        · subst h1
          simp only [mapInsert, if_pos rfl]
          exact List.mem_cons_of_mem _ h
        · simp only [mapInsert, if_neg h1]
          exact List.mem_cons_of_mem _ (ih h)

theorem map_entry_id_of_not_mem {α : Type} (m : List (String × α))
    (k : String) (v : α) (h : k ∉ m.map Prod.fst) :
    m.map (fun kv => if kv.1 = k then (kv.1, v) else kv) = m := by
  induction m with
  | nil => rfl
  | cons kv rest ih =>
      obtain ⟨k1, v1⟩ := kv
      simp only [List.map_cons, List.mem_cons, not_or] at h ⊢
      rw [if_neg (fun hc => h.1 hc.symm), ih h.2]

theorem mapInsert_eq_map_entry {α : Type} (m : List (String × α))
    (k : String) (v v0 : α) (hnd : (m.map Prod.fst).Nodup)
    (h : mapLookup m k = some v0) :
    mapInsert m k v = m.map (fun kv => if kv.1 = k then (kv.1, v) else kv)
    := by
  induction m with
  | nil => simp [mapLookup] at h
  | cons kv rest ih =>
      obtain ⟨k1, v1⟩ := kv
      simp only [List.map_cons, List.nodup_cons] at hnd
      by_cases h1 : k1 = k
      · subst h1
        simp only [mapInsert, if_pos rfl, List.map_cons, reduceIte]
        rw [map_entry_id_of_not_mem rest k1 v hnd.1]
      · simp only [mapLookup, if_neg h1] at h
        simp [mapInsert, h1, ih hnd.2 h]

theorem mapLookup_map_entries {α : Type} (m : List (String × α))
    (g : α → α) (k : String) :
    mapLookup (m.map (fun kv => (kv.1, g kv.2))) k =
      (mapLookup m k).map g := by
  induction m with
  | nil => simp [mapLookup]
  | cons kv rest ih =>
      obtain ⟨k1, v1⟩ := kv
      by_cases h : k1 = k <;> simp [mapLookup, h, ih]

theorem map_congr_mem {α β : Type} (l : List α) (f g : α → β)
    (h : ∀ a ∈ l, f a = g a) : l.map f = l.map g := by
  induction l with
  | nil => rfl
  | cons x xs ih =>
      simp only [List.map_cons]
      rw [h x (List.mem_cons_self x xs), ih (fun a ha => h a (List.mem_cons_of_mem x ha))]

/-- One degrader iteration, characterised: on a well-keyed store that
contains the visited snapshot record, the iteration rewrites that record
to `degradePotato` of it (and does nothing else). -/
theorem degradeStepStore_char (now : ℤ) (st : Storage.InMemoryStorage)
    (p : Potato) (hmem : (p.id, p) ∈ st.potatoes)
    (hnd : (st.potatoes.map Prod.fst).Nodup) :
    Background.degradeStepStore now st p =
      { st with potatoes :=
          mapInsert st.potatoes p.id (Background.degradePotato now p) } := by
  have hlk : mapLookup st.potatoes p.id = some p :=
    mapLookup_of_mem st.potatoes p.id p hnd hmem
  unfold Background.degradeStepStore Background.degradePotato
  dsimp only
  by_cases h1 : daysSince now p.harvestDate > 30 ∧ p.quality = Premium
  · rw [if_pos h1, if_pos h1]
    simp [Storage.UpdatePotato, hlk]
  · rw [if_neg h1, if_neg h1]
    by_cases h2 : daysSince now p.harvestDate > 60 ∧ p.quality = Standard
    · rw [if_pos h2, if_pos h2]
      simp [Storage.UpdatePotato, hlk]
    · rw [if_neg h2, if_neg h2]
      have : mapInsert st.potatoes p.id p = st.potatoes :=
        mapInsert_lookup_self st.potatoes p.id p hlk
      cases st
      simp_all

/-- The degrader loop, characterised: folding the iteration over a list
of distinct snapshot records contained in a well-keyed store rewrites
exactly the visited entries by `degradePotato` and leaves the recipes
alone. -/
theorem degrade_fold_char (now : ℤ) (ps : List Potato) :
    ∀ st : Storage.InMemoryStorage,
    (st.potatoes.map Prod.fst).Nodup →
    (∀ p ∈ ps, (p.id, p) ∈ st.potatoes) →
    (ps.map Potato.id).Nodup →
    List.foldl (Background.degradeStepStore now) st ps =
      { st with potatoes :=
          st.potatoes.map (fun kv =>
            if kv.1 ∈ ps.map Potato.id then
              (kv.1, Background.degradePotato now kv.2)
            else kv) } := by
  induction ps with
  | nil =>
      intro st _ _ _
      cases st
      simp
  | cons p ps ih =>
      intro st hnd hmem hids
      have hmemp : (p.id, p) ∈ st.potatoes := hmem p (List.mem_cons_self p ps)
      have hlk : mapLookup st.potatoes p.id = some p :=
        mapLookup_of_mem st.potatoes p.id p hnd hmemp
      simp only [List.map_cons, List.nodup_cons] at hids
      rw [List.foldl_cons, degradeStepStore_char now st p hmemp hnd]
      set dp := Background.degradePotato now p with hdp
      have hkeys : ((mapInsert st.potatoes p.id dp).map Prod.fst) =
          st.potatoes.map Prod.fst :=
        keys_mapInsert_of_lookup st.potatoes p.id dp p hlk
      have hnd1 : ((mapInsert st.potatoes p.id dp).map Prod.fst).Nodup := by
        rw [hkeys]; exact hnd
      have hmem1 : ∀ q ∈ ps, (q.id, q) ∈ mapInsert st.potatoes p.id dp := by
        intro q hq
        have hne : q.id ≠ p.id := by
          intro he
          exact hids.1 (he ▸ List.mem_map.mpr ⟨q, hq, rfl⟩)
        exact mem_mapInsert_ne st.potatoes q.id p.id q dp (hmem q
          (List.mem_cons_of_mem p hq)) hne
      have hfold := ih { st with potatoes := mapInsert st.potatoes p.id dp }
        hnd1 hmem1 hids.2
      rw [hfold]
      have hrepr := mapInsert_eq_map_entry st.potatoes p.id dp p hnd hlk
      simp only [hrepr, List.map_map]
      congr 1
      apply map_congr_mem
      intro kv hkv
      by_cases hk : kv.1 = p.id
      · have hv : kv.2 = p := by
          have h1 : mapLookup st.potatoes kv.1 = some kv.2 :=
            mapLookup_of_mem st.potatoes kv.1 kv.2 hnd
              (by cases kv; exact hkv)
          rw [hk] at h1
          exact Option.some.inj (h1.symm.trans hlk)
        have hnotps : kv.1 ∉ ps.map Potato.id := by
          rw [hk]; exact hids.1
        have hin : kv.1 ∈ (p :: ps).map Potato.id := by
          simp [List.map_cons, hk]
        simp only [Function.comp_apply, if_pos hk, if_neg hnotps,
          if_pos hin, hv]
      · have : (kv.1 ∈ ps.map Potato.id) ↔
            (kv.1 ∈ (p :: ps).map Potato.id) := by
          simp [List.map_cons, hk]
        by_cases hps : kv.1 ∈ ps.map Potato.id
        · simp only [Function.comp_apply, if_neg hk, if_pos hps,
            if_pos (this.mp hps)]
        · simp only [Function.comp_apply, if_neg hk, if_neg hps,
            if_neg (fun hc => hps (this.mpr hc))]

/-- The full degrader pass on a well-formed store maps every record in
place through `degradePotato`. -/
theorem degradePass_char (now : ℤ) (s : Storage.InMemoryStorage)
    (hwf : WF s) :
    Background.degradePotatoQuality now s =
      { s with potatoes :=
          s.potatoes.map (fun kv =>
            (kv.1, Background.degradePotato now kv.2)) } := by
  obtain ⟨hnd, hids⟩ := hwf
  have hkeyeq : (Storage.GetAllPotatoes s).map Potato.id =
      s.potatoes.map Prod.fst := by
    unfold Storage.GetAllPotatoes
    rw [List.map_map]
    exact map_congr_mem _ _ _ (fun kv hkv => hids kv hkv)
  have hmem : ∀ p ∈ Storage.GetAllPotatoes s, (p.id, p) ∈ s.potatoes := by
    intro p hp
    unfold Storage.GetAllPotatoes at hp
    obtain ⟨kv, hkv, rfl⟩ := List.mem_map.mp hp
    have := hids kv hkv
    rw [this]
    exact hkv
  have hfold := degrade_fold_char now (Storage.GetAllPotatoes s) s hnd hmem
    (hkeyeq ▸ hnd)
  unfold Background.degradePotatoQuality
  rw [hfold]
  congr 1
  apply map_congr_mem
  intro kv hkv
  rw [if_pos (hkeyeq ▸ List.mem_map.mpr ⟨kv, hkv, rfl⟩)]

/-- The ordering of the quality enum, `Premium > Standard > Economy`
(`models/potato.go`); unknown strings rank below all three. -/
def qualityRank (q : String) : ℕ :=
  if q = Premium then 3 else if q = Standard then 2
  else if q = Economy then 1 else 0

theorem degradePotato_id (now : ℤ) (p : Potato) :
    (Background.degradePotato now p).id = p.id := by
  unfold Background.degradePotato
  dsimp only
  split_ifs <;> rfl

theorem degradePotato_quality_monotone (now : ℤ) (p : Potato) :
    qualityRank (Background.degradePotato now p).quality ≤
      qualityRank p.quality := by
  unfold Background.degradePotato
  dsimp only
  by_cases h1 : daysSince now p.harvestDate > 30 ∧ p.quality = Premium
  · rw [if_pos h1, h1.2]
    show qualityRank Standard ≤ qualityRank Premium
    decide
  · rw [if_neg h1]
    by_cases h2 : daysSince now p.harvestDate > 60 ∧ p.quality = Standard
    · rw [if_pos h2, h2.2]
      show qualityRank Economy ≤ qualityRank Standard
      decide
    · rw [if_neg h2]

theorem degradePotato_idem_of_not_old_premium (now : ℤ) (p : Potato)
    (h : ¬(daysSince now p.harvestDate > 60 ∧ p.quality = Premium)) :
    Background.degradePotato now (Background.degradePotato now p) =
      Background.degradePotato now p := by
  by_cases h1 : daysSince now p.harvestDate > 30 ∧ p.quality = Premium
  · have hp1 : Background.degradePotato now p =
        { p with quality := Standard } := by
      unfold Background.degradePotato
      dsimp only
      rw [if_pos h1]
    rw [hp1]
    have hna : ¬(daysSince now
        ({ p with quality := Standard } : Potato).harvestDate > 30 ∧
        ({ p with quality := Standard } : Potato).quality = Premium) := by
      rintro ⟨_, hq⟩
      exact absurd hq (show ¬(Standard = Premium) by decide)
    have hnb : ¬(daysSince now
        ({ p with quality := Standard } : Potato).harvestDate > 60 ∧
        ({ p with quality := Standard } : Potato).quality = Standard) := by
      rintro ⟨hgt, _⟩
      exact h ⟨hgt, h1.2⟩
    unfold Background.degradePotato
    dsimp only
    rw [if_neg hna, if_neg hnb]
  · by_cases h2 : daysSince now p.harvestDate > 60 ∧ p.quality = Standard
    · have hp2 : Background.degradePotato now p =
          { p with quality := Economy } := by
        unfold Background.degradePotato
        dsimp only
        rw [if_neg h1, if_pos h2]
      rw [hp2]
      have hna : ¬(daysSince now
          ({ p with quality := Economy } : Potato).harvestDate > 30 ∧
          ({ p with quality := Economy } : Potato).quality = Premium) := by
        rintro ⟨_, hq⟩
        exact absurd hq (show ¬(Economy = Premium) by decide)
      have hnb : ¬(daysSince now
          ({ p with quality := Economy } : Potato).harvestDate > 60 ∧
          ({ p with quality := Economy } : Potato).quality = Standard) := by
        rintro ⟨_, hq⟩
        exact absurd hq (show ¬(Economy = Standard) by decide)
      unfold Background.degradePotato
      dsimp only
      rw [if_neg hna, if_neg hnb]
    · have hp3 : Background.degradePotato now p = p := by
        unfold Background.degradePotato
        dsimp only
        rw [if_neg h1, if_neg h2]
      rw [hp3]
      exact hp3

/-- The degrader pass preserves well-formedness of the store. -/
theorem WF_degradePass (now : ℤ) (s : Storage.InMemoryStorage)
    (hwf : WF s) : WF (Background.degradePotatoQuality now s) := by
  rw [degradePass_char now s hwf]
  obtain ⟨hnd, hids⟩ := hwf
  constructor
  · rw [List.map_map]
    exact hnd
  · intro kv hkv
    obtain ⟨kv0, hkv0, rfl⟩ := List.mem_map.mp hkv
    show (Background.degradePotato now kv0.2).id = kv0.1
    rw [degradePotato_id now kv0.2]
    exact hids kv0 hkv0

/-- C3: on a well-formed store, one degrader pass maps every record by
its whole-day age: `Premium` older than 30 days becomes `Standard`, else
`Standard` older than 60 days becomes `Economy`, else the record is
unchanged; and the per-record transition never moves quality backward
(its rank in `Premium > Standard > Economy` never increases). -/
theorem degrader_single_pass_spec (now : ℤ) (s : Storage.InMemoryStorage)
    (hwf : WF s) :
    (∀ kv ∈ s.potatoes,
      mapLookup (Background.degradePotatoQuality now s).potatoes kv.1 =
        some (if daysSince now kv.2.harvestDate > 30 ∧
                kv.2.quality = Premium then
                { kv.2 with quality := Standard }
              else if daysSince now kv.2.harvestDate > 60 ∧
                kv.2.quality = Standard then
                { kv.2 with quality := Economy }
              else kv.2)) ∧
    (∀ p : Potato,
      qualityRank (Background.degradePotato now p).quality ≤
        qualityRank p.quality) := by
  constructor
  · intro kv hkv
    rw [degradePass_char now s hwf]
    show mapLookup (s.potatoes.map (fun kv =>
      (kv.1, Background.degradePotato now kv.2))) kv.1 = _
    rw [mapLookup_map_entries s.potatoes (Background.degradePotato now) kv.1,
      mapLookup_of_mem s.potatoes kv.1 kv.2 hwf.1 (by cases kv; exact hkv)]
    rfl
  · intro p
    exact degradePotato_quality_monotone now p

/-- A concrete three-record store: a Premium potato 40 days old, a
Standard one 65 days old, a Premium one 10 days old (timestamps in hours,
`now = 1560`). -/
def threePotatoStore : Storage.InMemoryStorage :=
  { potatoes :=
      [("p1", samplePotato "p1" "Russet" "Premium" 600),
       ("p2", samplePotato "p2" "Russet" "Standard" 0),
       ("p3", samplePotato "p3" "Yukon Gold" "Premium" 1320)],
    recipes := [] }

/-- C3, witness: after one degrader pass at `now = 1560` over
`threePotatoStore`, the 40-day Premium record became Standard, the 65-day
Standard record became Economy, and the 10-day Premium record is
unchanged. -/
theorem degrader_single_pass_spec_witness :
    mapLookup (Background.degradePotatoQuality 1560
        threePotatoStore).potatoes "p1" =
      some ({ samplePotato "p1" "Russet" "Premium" 600 with
        quality := Standard }) ∧
    mapLookup (Background.degradePotatoQuality 1560
        threePotatoStore).potatoes "p2" =
      some ({ samplePotato "p2" "Russet" "Standard" 0 with
        quality := Economy }) ∧
    mapLookup (Background.degradePotatoQuality 1560
        threePotatoStore).potatoes "p3" =
      some (samplePotato "p3" "Yukon Gold" "Premium" 1320) :=
  ⟨((degrader_single_pass_spec 1560 threePotatoStore (by decide)).1
      ("p1", samplePotato "p1" "Russet" "Premium" 600)
      (by decide)).trans (by decide),
   ((degrader_single_pass_spec 1560 threePotatoStore (by decide)).1
      ("p2", samplePotato "p2" "Russet" "Standard" 0)
      (by decide)).trans (by decide),
   ((degrader_single_pass_spec 1560 threePotatoStore (by decide)).1
      ("p3", samplePotato "p3" "Yukon Gold" "Premium" 1320)
      (by decide)).trans (by decide)⟩

/-- A concrete store holding one Premium potato 61 days old at
`now = 1464` hours. -/
def oldPremiumStore : Storage.InMemoryStorage :=
  { potatoes := [("p1", samplePotato "p1" "Russet" "Premium" 0)],
    recipes := [] }

/-- C2, counterexample: on a store holding a Premium record 61 days old,
the second degrader pass over unchanged data is *not* a no-op — the first
pass demotes the record to Standard and the second demotes it further to
Economy, so the state after two passes differs from the state after
one. -/
theorem degrader_second_pass_not_noop :
    Background.degradePotatoQuality 1464
        (Background.degradePotatoQuality 1464 oldPremiumStore) ≠
      Background.degradePotatoQuality 1464 oldPremiumStore := by
  decide

/-- C2, amended: the second degrader pass over unchanged data is a no-op
provided no record is Premium and older than 60 days (such a record is
demoted only one step per pass: Standard after the first pass, Economy
after the second); in particular re-running on already-Economy items
changes nothing. -/
theorem degrader_second_pass_noop (now : ℤ) (s : Storage.InMemoryStorage)
    (hwf : WF s)
    (h : ∀ kv ∈ s.potatoes,
      ¬(daysSince now kv.2.harvestDate > 60 ∧ kv.2.quality = Premium)) :
    Background.degradePotatoQuality now
        (Background.degradePotatoQuality now s) =
      Background.degradePotatoQuality now s := by
  have hwf2 : WF (Background.degradePotatoQuality now s) :=
    WF_degradePass now s hwf
  rw [degradePass_char now _ hwf2, degradePass_char now s hwf]
  dsimp only
  congr 1
  rw [List.map_map]
  apply map_congr_mem
  intro kv hkv
  show (kv.1, Background.degradePotato now (Background.degradePotato now
    kv.2)) = (kv.1, Background.degradePotato now kv.2)
  rw [degradePotato_idem_of_not_old_premium now kv.2 (h kv hkv)]

/-- C2, witness: on a concrete store holding a Premium record only 40
days old at `now = 960` hours, two degrader passes give the same state as
one. -/
theorem degrader_second_pass_noop_witness :
    WF ({ potatoes := [("p1", samplePotato "p1" "Russet" "Premium" 0)],
          recipes := [] } : Storage.InMemoryStorage) ∧
    Background.degradePotatoQuality 960
        (Background.degradePotatoQuality 960
          { potatoes := [("p1", samplePotato "p1" "Russet" "Premium" 0)],
            recipes := [] }) =
      Background.degradePotatoQuality 960
        { potatoes := [("p1", samplePotato "p1" "Russet" "Premium" 0)],
          recipes := [] } :=
  ⟨by decide,
   degrader_second_pass_noop 960
     { potatoes := [("p1", samplePotato "p1" "Russet" "Premium" 0)],
       recipes := [] } (by decide) (by decide)⟩

/-! ## Lemmas for the inventory summary -/

/-- The group record started for a previously unseen variety
(potato_service.go lines 87-92). -/
def baseItem (potato : Potato) : InventoryItem :=
  { variety := potato.variety, totalQuantity := 1,
    totalWeight := potato.weight, averagePrice := potato.price }

/-- The group record after folding one more potato into an existing group
(potato_service.go lines 83-85). -/
def bumpItem (item : InventoryItem) (potato : Potato) : InventoryItem :=
  { variety := item.variety, totalQuantity := item.totalQuantity + 1,
    totalWeight := item.totalWeight + potato.weight,
    averagePrice :=
      (item.averagePrice * (((item.totalQuantity + 1 : ℕ) : ℚ) - 1) +
        potato.price) / ((item.totalQuantity + 1 : ℕ) : ℚ) }

theorem updateVarietyMap_nil (potato : Potato) :
    Service.updateVarietyMap [] potato =
      [(potato.variety, baseItem potato)] := rfl

theorem updateVarietyMap_cons (k : String) (item : InventoryItem)
    (rest : List (String × InventoryItem)) (potato : Potato) :
    Service.updateVarietyMap ((k, item) :: rest) potato =
      if k = potato.variety then (k, bumpItem item potato) :: rest
      else (k, item) :: Service.updateVarietyMap rest potato := rfl

theorem lookup_updateVM_ne (m : List (String × InventoryItem))
    (potato : Potato) (v : String) (h : v ≠ potato.variety) :
    mapLookup (Service.updateVarietyMap m potato) v = mapLookup m v := by
  induction m with
  | nil =>
      rw [updateVarietyMap_nil]
      simp [mapLookup, Ne.symm h]
  | cons kv rest ih =>
      obtain ⟨k, item⟩ := kv
      rw [updateVarietyMap_cons]
      by_cases hk : k = potato.variety
      · rw [if_pos hk]
        have hkv : k ≠ v := fun hc => h (hc ▸ hk)
        simp [mapLookup, hkv]
      · rw [if_neg hk]
        by_cases hkv : k = v
        · simp [mapLookup, hkv]
        · simp [mapLookup, hkv, ih]

theorem lookup_updateVM_none (m : List (String × InventoryItem))
    (potato : Potato) (h : mapLookup m potato.variety = none) :
    mapLookup (Service.updateVarietyMap m potato) potato.variety =
      some (baseItem potato) := by
  induction m with
  | nil =>
      rw [updateVarietyMap_nil]
      simp [mapLookup]
  | cons kv rest ih =>
      obtain ⟨k, item⟩ := kv
      have hk : k ≠ potato.variety := by
        intro hc
        simp [mapLookup, hc] at h
      simp only [mapLookup, if_neg hk] at h
      rw [updateVarietyMap_cons, if_neg hk]
      simp [mapLookup, hk, ih h]

theorem lookup_updateVM_some (m : List (String × InventoryItem))
    (potato : Potato) (item : InventoryItem)
    (h : mapLookup m potato.variety = some item) :
    mapLookup (Service.updateVarietyMap m potato) potato.variety =
      some (bumpItem item potato) := by
  induction m with
  | nil => simp [mapLookup] at h
  | cons kv rest ih =>
      obtain ⟨k, item1⟩ := kv
      by_cases hk : k = potato.variety
      · have hitem : item1 = item := by simpa [mapLookup, hk] using h
        subst hitem
        rw [updateVarietyMap_cons, if_pos hk]
        simp [mapLookup, hk]
      · simp only [mapLookup, if_neg hk] at h
        rw [updateVarietyMap_cons, if_neg hk]
        simp [mapLookup, hk, ih h]

theorem keys_updateVM_some (m : List (String × InventoryItem))
    (potato : Potato) (item : InventoryItem)
    (h : mapLookup m potato.variety = some item) :
    (Service.updateVarietyMap m potato).map Prod.fst = m.map Prod.fst := by
  induction m with
  | nil => simp [mapLookup] at h
  | cons kv rest ih =>
      obtain ⟨k, item1⟩ := kv
      by_cases hk : k = potato.variety
      · rw [updateVarietyMap_cons, if_pos hk]
        simp
      · simp only [mapLookup, if_neg hk] at h
        rw [updateVarietyMap_cons, if_neg hk]
        simp [ih h]

theorem keys_updateVM_none (m : List (String × InventoryItem))
    (potato : Potato) (h : mapLookup m potato.variety = none) :
    (Service.updateVarietyMap m potato).map Prod.fst =
      m.map Prod.fst ++ [potato.variety] := by
  induction m with
  | nil =>
      rw [updateVarietyMap_nil]
      simp
  | cons kv rest ih =>
      obtain ⟨k, item1⟩ := kv
      have hk : k ≠ potato.variety := by
        intro hc
        simp [mapLookup, hc] at h
      simp only [mapLookup, if_neg hk] at h
      rw [updateVarietyMap_cons, if_neg hk]
      simp [ih h]

theorem keys_updateVM_nodup (m : List (String × InventoryItem))
    (potato : Potato) (hnd : (m.map Prod.fst).Nodup) :
    ((Service.updateVarietyMap m potato).map Prod.fst).Nodup := by
  cases hl : mapLookup m potato.variety with
  | none =>
      rw [keys_updateVM_none m potato hl]
      have hnm : potato.variety ∉ m.map Prod.fst :=
        (mapLookup_eq_none_iff m potato.variety).mp hl
      simp [List.nodup_append, hnd, hnm]
  | some item =>
      rw [keys_updateVM_some m potato item hl]
      exact hnd

/-- The relation the summary loop maintains between the records already
visited and the variety map: keys are distinct, absent varieties have no
visited record, and each group's fields are the count, summed weight and
(via `count * average = sum`) averaged price of the visited records of
that variety. -/
def SummaryInv (seen : List Potato)
    (m : List (String × InventoryItem)) : Prop :=
  (m.map Prod.fst).Nodup ∧
  (∀ v : String, mapLookup m v = none →
    seen.filter (fun p => p.variety = v) = []) ∧
  (∀ (v : String) (item : InventoryItem), mapLookup m v = some item →
    item.variety = v ∧ 0 < item.totalQuantity ∧
    item.totalQuantity = (seen.filter (fun p => p.variety = v)).length ∧
    item.totalWeight =
      ((seen.filter (fun p => p.variety = v)).map Potato.weight).sum ∧
    (item.totalQuantity : ℚ) * item.averagePrice =
      ((seen.filter (fun p => p.variety = v)).map Potato.price).sum)

theorem SummaryInv_step (seen : List Potato)
    (m : List (String × InventoryItem)) (p : Potato)
    (h : SummaryInv seen m) :
    SummaryInv (seen ++ [p]) (Service.updateVarietyMap m p) := by
  obtain ⟨hnd, hnone, hsome⟩ := h
  refine ⟨keys_updateVM_nodup m p hnd, ?_, ?_⟩
  · intro v hv
    by_cases hpv : v = p.variety
    · exfalso
      subst hpv
      cases hl : mapLookup m p.variety with
      | none => rw [lookup_updateVM_none m p hl] at hv; cases hv
      | some item => rw [lookup_updateVM_some m p item hl] at hv; cases hv
    · rw [lookup_updateVM_ne m p v hpv] at hv
      rw [List.filter_append, hnone v hv]
      have hfp : [p].filter (fun q => q.variety = v) = [] := by
        simp [Ne.symm hpv]
      rw [hfp]
      rfl
  · intro v item hv
    by_cases hpv : v = p.variety
    · subst hpv
      cases hl : mapLookup m p.variety with
      | none =>
          rw [lookup_updateVM_none m p hl] at hv
          have hitem : item = baseItem p := (Option.some.inj hv).symm
          subst hitem
          have hfe : seen.filter (fun q => q.variety = p.variety) = [] :=
            hnone _ hl
          have hfp : [p].filter (fun q => q.variety = p.variety) = [p] := by
            simp
          refine ⟨rfl, Nat.one_pos, ?_, ?_, ?_⟩ <;>
            rw [List.filter_append, hfe, hfp] <;> simp [baseItem]
      | some item0 =>
          rw [lookup_updateVM_some m p item0 hl] at hv
          have hitem : item = bumpItem item0 p := (Option.some.inj hv).symm
          subst hitem
          obtain ⟨hvar, hpos, hq, hw, hpr⟩ := hsome _ item0 hl
          have hfp : [p].filter (fun q => q.variety = p.variety) = [p] := by
            simp
          refine ⟨hvar, Nat.succ_pos _, ?_, ?_, ?_⟩
          · rw [List.filter_append, hfp, List.length_append]
            simp [bumpItem, hq]
          · rw [List.filter_append, hfp, List.map_append, List.sum_append]
            simp [bumpItem, hw]
          · rw [List.filter_append, hfp, List.map_append, List.sum_append]
            simp only [bumpItem, List.map_cons, List.map_nil,
              List.sum_cons, List.sum_nil, add_zero]
            have hQ : ((item0.totalQuantity + 1 : ℕ) : ℚ) ≠ 0 := by
              exact_mod_cast Nat.succ_ne_zero item0.totalQuantity
            rw [mul_comm (((item0.totalQuantity + 1 : ℕ) : ℚ)) _,
              div_mul_cancel₀ _ hQ]
            have hcast : (((item0.totalQuantity + 1 : ℕ) : ℚ)) - 1 =
                (item0.totalQuantity : ℚ) := by
              push_cast
              ring
            rw [hcast, mul_comm item0.averagePrice _, hpr]
    · rw [lookup_updateVM_ne m p v hpv] at hv
      obtain ⟨hvar, hpos, hq, hw, hpr⟩ := hsome v item hv
      have hfp : [p].filter (fun q => q.variety = v) = [] := by
        simp [Ne.symm hpv]
      refine ⟨hvar, hpos, ?_, ?_, ?_⟩
      · rw [List.filter_append, hfp]
        simpa using hq
      · rw [List.filter_append, hfp]
        simpa using hw
      · rw [List.filter_append, hfp]
        simpa using hpr

theorem summary_foldl_inv (ps : List Potato) :
    ∀ (seen : List Potato) (acc : Service.SummaryAcc),
    SummaryInv seen acc.varietyMap →
    acc.totalWeight = (seen.map Potato.weight).sum →
    acc.totalValue = (seen.map Potato.price).sum →
    SummaryInv (seen ++ ps)
        (List.foldl Service.summaryStep acc ps).varietyMap ∧
    (List.foldl Service.summaryStep acc ps).totalWeight =
      ((seen ++ ps).map Potato.weight).sum ∧
    (List.foldl Service.summaryStep acc ps).totalValue =
      ((seen ++ ps).map Potato.price).sum := by
  induction ps with
  | nil =>
      intro seen acc h1 h2 h3
      simpa using ⟨h1, h2, h3⟩
  | cons p ps ih =>
      intro seen acc h1 h2 h3
      have h1' : SummaryInv (seen ++ [p])
          (Service.summaryStep acc p).varietyMap :=
        SummaryInv_step seen acc.varietyMap p h1
      have h2' : (Service.summaryStep acc p).totalWeight =
          ((seen ++ [p]).map Potato.weight).sum := by
        simp [Service.summaryStep, h2]
      have h3' : (Service.summaryStep acc p).totalValue =
          ((seen ++ [p]).map Potato.price).sum := by
        simp [Service.summaryStep, h3]
      have hrec := ih (seen ++ [p]) (Service.summaryStep acc p) h1' h2' h3'
      simpa [List.foldl_cons, List.append_assoc] using hrec

/-- C6: the inventory summary of any snapshot reports the exact number of
records, the exact sum of weights, the exact sum of prices, and for every
variety group a positive count equal to the group's size, the group's
summed weight, and an average price equal to the arithmetic mean of the
group's prices — whatever the visitation order of the snapshot. -/
theorem inventorySummary_spec (s : Storage.InMemoryStorage) :
    (Service.GetInventorySummary s).totalPotatoes =
      (Storage.GetAllPotatoes s).length ∧
    (Service.GetInventorySummary s).totalWeight =
      ((Storage.GetAllPotatoes s).map Potato.weight).sum ∧
    (Service.GetInventorySummary s).totalValue =
      ((Storage.GetAllPotatoes s).map Potato.price).sum ∧
    ∀ item ∈ (Service.GetInventorySummary s).byVariety,
      0 < item.totalQuantity ∧
      item.totalQuantity =
        ((Storage.GetAllPotatoes s).filter
          (fun p => p.variety = item.variety)).length ∧
      item.totalWeight =
        (((Storage.GetAllPotatoes s).filter
          (fun p => p.variety = item.variety)).map Potato.weight).sum ∧
      item.averagePrice =
        (((Storage.GetAllPotatoes s).filter
          (fun p => p.variety = item.variety)).map Potato.price).sum /
          (item.totalQuantity : ℚ) := by
  have hbase : SummaryInv ([] : List Potato) [] := by
    refine ⟨List.nodup_nil, ?_, ?_⟩
    · intro v _
      rfl
    · intro v item hv
      simp [mapLookup] at hv
  have hfold := summary_foldl_inv (Storage.GetAllPotatoes s) []
    { totalWeight := 0, totalValue := 0, varietyMap := [] } hbase rfl rfl
  obtain ⟨hinv, hw, hv⟩ := hfold
  simp only [List.nil_append] at hinv hw hv
  refine ⟨rfl, hw, hv, ?_⟩
  intro item hitem
  have hitem' : item ∈ (List.foldl Service.summaryStep
      { totalWeight := 0, totalValue := 0, varietyMap := [] }
      (Storage.GetAllPotatoes s)).varietyMap.map Prod.snd := hitem
  obtain ⟨kv, hkv, hsnd⟩ := List.mem_map.mp hitem'
  obtain ⟨hnd, hnone, hsome⟩ := hinv
  have hlk := mapLookup_of_mem _ kv.1 kv.2 hnd (by cases kv; exact hkv)
  obtain ⟨hvar, hpos, hq, hwt, hpr⟩ := hsome kv.1 kv.2 hlk
  subst hsnd
  rw [hvar]
  refine ⟨hpos, hq, hwt, ?_⟩
  have hQ : ((kv.2.totalQuantity : ℕ) : ℚ) ≠ 0 := by
    exact_mod_cast hpos.ne'
  rw [eq_div_iff hQ, mul_comm]
  exact hpr

/-- The concrete scenario of the spec: three Russet records with weights
0.1, 0.2, 0.3 kg and prices 1, 2, 3. -/
def russetStore : Storage.InMemoryStorage :=
  { potatoes :=
      [("p1", { id := "p1", variety := "Russet", origin := "Idaho",
                weight := 0.1, quality := "Premium", harvestDate := 10,
                price := 1 }),
       ("p2", { id := "p2", variety := "Russet", origin := "Idaho",
                weight := 0.2, quality := "Standard", harvestDate := 10,
                price := 2 }),
       ("p3", { id := "p3", variety := "Russet", origin := "Maine",
                weight := 0.3, quality := "Economy", harvestDate := 10,
                price := 3 })],
    recipes := [] }

/-- C6, witness: on the three-Russet store, the summary's Russet group
has quantity 3, total weight 3/5 (= 0.6 exactly) and average price 2, and
these equal the count, summed weight and price mean of the snapshot's
Russet records. -/
theorem inventorySummary_spec_witness :
    (({ variety := "Russet", totalQuantity := 3, totalWeight := 3/5,
        averagePrice := 2 } : InventoryItem) ∈
      (Service.GetInventorySummary russetStore).byVariety) ∧
    (3 : ℕ) = ((Storage.GetAllPotatoes russetStore).filter
      (fun p => p.variety = "Russet")).length ∧
    (3/5 : ℚ) = (((Storage.GetAllPotatoes russetStore).filter
      (fun p => p.variety = "Russet")).map Potato.weight).sum ∧
    (2 : ℚ) = (((Storage.GetAllPotatoes russetStore).filter
      (fun p => p.variety = "Russet")).map Potato.price).sum /
      ((3 : ℕ) : ℚ) := by
  have hmem : (InventoryItem.mk "Russet" 3 (3/5) 2) ∈
      (Service.GetInventorySummary russetStore).byVariety := by
    show _ ∈ (List.foldl Service.summaryStep
      ({ totalWeight := 0, totalValue := 0, varietyMap := [] })
      (Storage.GetAllPotatoes russetStore)).varietyMap.map Prod.snd
    norm_num [Storage.GetAllPotatoes, russetStore, Service.summaryStep,
      Service.updateVarietyMap, List.foldl_cons, List.foldl_nil,
      InventoryItem.mk.injEq]
  have hth := (inventorySummary_spec russetStore).2.2.2 _ hmem
  exact ⟨hmem, hth.2.1, hth.2.2.1, hth.2.2.2⟩

end Potatoes
